import Mathlib

/-!
# Verification of the mikrotik-rs RouterOS protocol implementation

A shallow embedding, in Lean 4, of the pure core of the `mikrotik-rs`
crate: the command builder validation (`check_latin1`), the variable-width
word-length codec (`CommandBuffer::write_len` / `read_length`), word and
sentence parsing (`Word::try_from`, `Sentence`), the sentence-to-response
parser (`CommandResponse::try_from`), the actor's zero-byte packet
splitter, and the routing step of `process_packet` together with the
submit-channel-closed handler of the actor main loop.

Bytes are modelled as `Nat` values below 256, byte strings as `List Nat`,
machine integers as `Nat` with explicit masking where the Rust code
masks.  Fallible Rust functions return `Except`; functions that can
panic (index out of bounds) return `Option`, with `none` marking the
panic.  All definitions are executable.
-/

namespace MikrotikRs

/-! ## Command builder validation (`src/protocol/command.rs`)

`check_latin1` calls `encoding_rs::mem::str_latin1_up_to`, which returns
the UTF-8 byte index of the first character whose code point is above
U+00FF, or the byte length of the string when every character is Latin-1
representable.  The builder input is a Rust `&str`, modelled as
`List Char`. -/

/-- Error type of `CommandError` (`src/error.rs`). -/
inductive CommandError
  | hasInvalidCharacter (c : Char)
deriving DecidableEq

/-- Model of `encoding_rs::mem::str_latin1_up_to`: UTF-8 byte index of the
first char with code point above `0xFF`, or the total UTF-8 byte length
when there is none. -/
def str_latin1_up_to : List Char → Nat
  | [] => 0
  | c :: cs => if c.toNat ≤ 0xFF then c.utf8Size + str_latin1_up_to cs else 0

/-- UTF-8 byte length of a string (`str::len`). -/
def utf8ByteLen (s : List Char) : Nat := (s.map Char.utf8Size).sum

/-- Model of `check_latin1` (`src/protocol/command.rs:378-386`), as
written in the source: the error branch is entered only when
`first_invalid_char >= value.len()`, and then `value.chars().nth(..)` is
consulted at that byte index. -/
def check_latin1 (value : List Char) : Except CommandError Unit :=
  let first_invalid_char := str_latin1_up_to value
  if first_invalid_char ≥ utf8ByteLen value then
    match value.get? first_invalid_char with
    | some ch => .error (.hasInvalidCharacter ch)
    | none => .ok ()
  else .ok ()

/-! ## Word-level errors (`src/protocol/word.rs`)

`WordError::Utf8` and `WordError::Tag` carry library error values
(`Utf8Error`, `ParseIntError`) that the repository code never inspects;
they are modelled as bare constructors. -/

/-- Model of `WordError` (`src/protocol/word.rs:209-218`). -/
inductive WordError
  | utf8
  | tag
  | attribute
  | attributeKeyNotUtf8
deriving DecidableEq

/-- Model of `SentenceError` (`src/protocol/sentence.rs:90-102`). -/
inductive SentenceError
  | wordError (e : WordError)
  | prefixLength
deriving DecidableEq

/-! ## Variable-width length codec (`src/protocol/sentence.rs:105-142`,
`src/protocol/command.rs:318-347`)

`read_length` indexes `data[1]`..`data[4]` directly; an access past the
end of the slice is a Rust panic, modelled as `none`.  The masks
`!0xC0`, `!0xE0`, `!0xF0` are the 32-bit complements `0xFFFFFF3F`,
`0xFFFFFF1F`, `0xFFFFFF0F`.  No intermediate value can exceed `2^32 - 1`
for byte-valued input, so plain `Nat` arithmetic coincides with the
source's `u32` arithmetic. -/

/-- Model of `read_length`: returns the decoded length and the number of
bytes consumed, a `PrefixLength` error on a reserved `11111xxx` prefix,
or `none` when the Rust code would index out of bounds (panic). -/
def read_length : List Nat → Option (Except SentenceError (Nat × Nat))
  | [] => none
  | c :: rest =>
    if c &&& 0x80 = 0 then some (.ok (c, 1))
    else if c &&& 0xC0 = 0x80 then
      match rest with
      | b1 :: _ => some (.ok (((c &&& 0xFFFFFF3F) <<< 8) + b1, 2))
      | [] => none
    else if c &&& 0xE0 = 0xC0 then
      match rest with
      | b1 :: b2 :: _ =>
        some (.ok (((((c &&& 0xFFFFFF1F) <<< 8) + b1) <<< 8) + b2, 3))
      | _ => none
    else if c &&& 0xF0 = 0xE0 then
      match rest with
      | b1 :: b2 :: b3 :: _ =>
        some (.ok (((((((c &&& 0xFFFFFF0F) <<< 8) + b1) <<< 8) + b2) <<< 8) + b3, 4))
      | _ => none
    else if c &&& 0xF8 = 0xF0 then
      match rest with
      | b1 :: b2 :: b3 :: b4 :: _ =>
        some (.ok (((((b1 <<< 8) + b2) <<< 8) + b3) <<< 8 + b4, 5))
      | _ => none
    else some (.error .prefixLength)

/-- Model of `CommandBuffer::write_len`: the bytes appended for a length
`len`.  The source matches on `u32` ranges; the final arm therefore
covers `0x10000000..=0xFFFFFFFF`. -/
def write_len (len : Nat) : List Nat :=
  if len ≤ 0x7F then [len]
  else if len ≤ 0x3FFF then
    [((len ||| 0x8000) >>> 8) &&& 0xFF, (len ||| 0x8000) &&& 0xFF]
  else if len ≤ 0x1FFFFF then
    [((len ||| 0xC00000) >>> 16) &&& 0xFF, ((len ||| 0xC00000) >>> 8) &&& 0xFF,
      (len ||| 0xC00000) &&& 0xFF]
  else if len ≤ 0xFFFFFFF then
    [((len ||| 0xE0000000) >>> 24) &&& 0xFF, ((len ||| 0xE0000000) >>> 16) &&& 0xFF,
      ((len ||| 0xE0000000) >>> 8) &&& 0xFF, (len ||| 0xE0000000) &&& 0xFF]
  else
    [0xF0, (len >>> 24) &&& 0xFF, (len >>> 16) &&& 0xFF, (len >>> 8) &&& 0xFF,
      len &&& 0xFF]

/-- Model of `CommandBuffer::write_word`: length prefix followed by the
word bytes. -/
def write_word (w : List Nat) : List Nat := write_len w.length ++ w

/-- The byte sequence of a full sentence as produced by the builder: each
word length-prefixed, then the zero-length terminator that
`CommandBuilder::build` appends. -/
def encodeSentence (ws : List (List Nat)) : List Nat :=
  (ws.map write_word).flatten ++ write_len 0

/-- The minimal prefix width used by `write_len`, as the claim states it:
1 byte for lengths up to `0x7F`, 2 up to `0x3FFF`, 3 up to `0x1FFFFF`,
4 up to `0xFFFFFFF`, 5 beyond. -/
def prefixWidth (L : Nat) : Nat :=
  if L ≤ 0x7F then 1 else if L ≤ 0x3FFF then 2 else if L ≤ 0x1FFFFF then 3
  else if L ≤ 0xFFFFFFF then 4 else 5

/-! ## Word model (`src/protocol/word.rs`)

Words are raw byte lists.  `&str` values appearing inside parsed words
are kept as their UTF-8 bytes; `std::str::from_utf8` is modelled by the
strict UTF-8 validity check `isValidUtf8` (rejecting overlong forms,
surrogates and code points above U+10FFFF, as Rust does). -/

/-- ASCII bytes of a Lean string literal, used to write the fixed
protocol tokens (`!done`, `.tag=`, `=message=`, ...). -/
def asciiBytes (s : String) : List Nat := s.toList.map Char.toNat

/-- Is `b` a UTF-8 continuation byte `10xxxxxx`? -/
def isCont (b : Nat) : Bool := 0x80 ≤ b && b ≤ 0xBF

/-- One UTF-8 continuation byte in `lo..=hi`, returning the remainder. -/
def utf8Step2 (lo hi : Nat) : List Nat → Option (List Nat)
  | b1 :: r => if lo ≤ b1 && b1 ≤ hi then some r else none
  | [] => none

/-- Two continuation bytes, the first in `lo..=hi`. -/
def utf8Step3 (lo hi : Nat) : List Nat → Option (List Nat)
  | b1 :: b2 :: r => if (lo ≤ b1 && b1 ≤ hi) && isCont b2 then some r else none
  | _ => none

/-- Three continuation bytes, the first in `lo..=hi`. -/
def utf8Step4 (lo hi : Nat) : List Nat → Option (List Nat)
  | b1 :: b2 :: b3 :: r =>
    if (lo ≤ b1 && b1 ≤ hi) && isCont b2 && isCont b3 then some r else none
  | _ => none

/-- Continuation bytes required after a non-ASCII leading byte, following
the strict UTF-8 table (overlongs, surrogates and values above U+10FFFF
rejected, as `std::str::from_utf8` does); `none` when the leading byte or
a continuation byte is unacceptable. -/
def utf8Tail (b : Nat) (rest : List Nat) : Option (List Nat) :=
  if 0xC2 ≤ b && b ≤ 0xDF then utf8Step2 0x80 0xBF rest
  else if b = 0xE0 then utf8Step3 0xA0 0xBF rest
  else if (0xE1 ≤ b && b ≤ 0xEC) || b = 0xEE || b = 0xEF then utf8Step3 0x80 0xBF rest
  else if b = 0xED then utf8Step3 0x80 0x9F rest
  else if b = 0xF0 then utf8Step4 0x90 0xBF rest
  else if 0xF1 ≤ b && b ≤ 0xF3 then utf8Step4 0x80 0xBF rest
  else if b = 0xF4 then utf8Step4 0x80 0x8F rest
  else none

/-- Fuel-indexed worker for UTF-8 validation; one unit of fuel per
decoded scalar, and every scalar consumes at least one byte. -/
def isValidUtf8Go : Nat → List Nat → Bool
  | 0, _ => false
  | _ + 1, [] => true
  | fuel + 1, b :: rest =>
    if b ≤ 0x7F then isValidUtf8Go fuel rest
    else
      match utf8Tail b rest with
      | some r => isValidUtf8Go fuel r
      | none => false

/-- Strict UTF-8 validity of a byte sequence, the acceptance set of
`std::str::from_utf8`. -/
def isValidUtf8 (s : List Nat) : Bool := isValidUtf8Go (s.length + 1) s

/-- Model of `WordCategory` (`src/protocol/word.rs:126-137`). -/
inductive WordCategory
  | done
  | reply
  | trap
  | fatal
  | empty
deriving DecidableEq

/-- Model of `TryFrom<&str> for WordCategory`
(`src/protocol/word.rs:139-152`), on UTF-8 bytes. -/
def wordCategoryOfBytes (s : List Nat) : Option WordCategory :=
  if s = asciiBytes "!done" then some .done
  else if s = asciiBytes "!re" then some .reply
  else if s = asciiBytes "!trap" then some .trap
  else if s = asciiBytes "!fatal" then some .fatal
  else if s = asciiBytes "!empty" then some .empty
  else none

/-- Digit accumulator of unsigned integer parsing. -/
def digitsValGo : List Nat → Nat → Option Nat
  | [], acc => some acc
  | b :: r, acc =>
    if 48 ≤ b && b ≤ 57 then digitsValGo r (acc * 10 + (b - 48)) else none

/-- Model of Rust `str::parse` for an unsigned integer type with
exclusive bound `bound` (`u16`: 65536, `u8`: 256): an optional leading
`+`, then one or more decimal digits, and the value must fit.  `none`
covers both `InvalidDigit` and overflow errors. -/
def parse_uint (bound : Nat) (s : List Nat) : Option Nat :=
  let digits := match s with
    | 43 :: r => r
    | _ => s
  match digits with
  | [] => none
  | _ =>
    match digitsValGo digits 0 with
    | some v => if v < bound then some v else none
    | none => none

/-- `str::parse::<u16>`. -/
def parse_u16 (s : List Nat) : Option Nat := parse_uint 65536 s

/-- `str::parse::<u8>`. -/
def parse_u8 (s : List Nat) : Option Nat := parse_uint 256 s

/-- Model of `WordAttribute` (`src/protocol/word.rs:168-175`): the key
(valid UTF-8 bytes), the UTF-8 view of the value when it decodes, and
the raw value bytes. -/
structure WordAttribute where
  key : List Nat
  value : Option (List Nat)
  value_raw : Option (List Nat)
deriving DecidableEq

/-- Model of `TryFrom<&[u8]> for WordAttribute`
(`src/protocol/word.rs:177-205`): the word must start with `=`; the rest
is split at the first further `=` into key and optional raw value; the
key must be valid UTF-8; the value's UTF-8 view is kept only when it
decodes, the raw bytes are kept regardless. -/
def wordAttributeTryFrom : List Nat → Except WordError WordAttribute
  | [] => .error .attribute
  | b :: rest =>
    if b = 61 then
      let key := rest.takeWhile (fun x => x ≠ 61)
      let value_raw : Option (List Nat) :=
        if rest.any (fun x => x == 61) then
          some ((rest.dropWhile (fun x => x ≠ 61)).drop 1)
        else none
      if isValidUtf8 key then
        .ok ⟨key, value_raw.bind (fun v => if isValidUtf8 v then some v else none),
          value_raw⟩
      else .error .attributeKeyNotUtf8
    else .error .attribute

/-- Model of `Word` (`src/protocol/word.rs:27-36`). -/
inductive Word
  | category (c : WordCategory)
  | tag (t : Nat)
  | attribute (a : WordAttribute)
  | message (s : List Nat)
deriving DecidableEq

/-- Model of `WordType` (`src/protocol/error.rs:122-131`). -/
inductive WordType
  | tag
  | category
  | attribute
  | message
deriving DecidableEq

/-- Model of `Word::word_type` / `From<Word> for WordType`. -/
def wordTypeOf : Word → WordType
  | .category _ => .category
  | .tag _ => .tag
  | .attribute _ => .attribute
  | .message _ => .message

/-- Second stage of `Word::try_from`: the attribute check and the final
message fallback, reached when the bytes are not valid UTF-8 or match
neither a category token nor a `.tag=` prefix. -/
def wordAfterCategoryTag (value : List Nat) : Except WordError Word :=
  match value with
  | b :: rest =>
    if b = 61 then
      match wordAttributeTryFrom (b :: rest) with
      | .ok a => .ok (.attribute a)
      | .error e => .error e
    else if isValidUtf8 (b :: rest) then .ok (.message (b :: rest))
    else .error .utf8
  | [] => if isValidUtf8 [] then .ok (.message []) else .error .utf8

/-- Model of `TryFrom<&'a [u8]> for Word` (`src/protocol/word.rs:92-120`):
valid-UTF-8 bytes are first checked against the category tokens and the
`.tag=<u16>` form; any word starting with `=` is parsed as an attribute;
everything else is a message and must be valid UTF-8. -/
def wordTryFrom (value : List Nat) : Except WordError Word :=
  if isValidUtf8 value then
    match wordCategoryOfBytes value with
    | some c => .ok (.category c)
    | none =>
      if value.take 5 = asciiBytes ".tag=" then
        match parse_u16 (value.drop 5) with
        | some t => .ok (.tag t)
        | none => .error .tag
      else wordAfterCategoryTag value
  else wordAfterCategoryTag value

/-! ## Sentence iteration (`src/protocol/sentence.rs:46-83`)

`Sentence` is an iterator over a byte slice.  Its `next` method:
returns `None` once the position reaches the end or a zero length is
read (the position is *not* advanced past a zero length, nor past a
length-decode error, so a decode error repeats forever — `sticky`);
propagates `read_length` panics; yields a `PrefixLength` error when the
decoded word overruns the slice (the position is then advanced past the
end, so iteration ends afterwards); otherwise yields `Word::try_from` of
the sliced word and advances.  The iterator's complete output is the
finite list of yielded items plus how iteration ends. -/

/-- How iteration of a `Sentence` ends after its yielded items: `clean`
(`None`), `panic` (an out-of-bounds index inside `read_length`), or
`sticky` (the last item is a length-decode error that would be yielded
again forever, since the position is not advanced). -/
inductive IterEnd
  | clean
  | panic
  | sticky
deriving DecidableEq

/-- Fuel-indexed worker for the sentence iterator; `fuel` strictly
exceeds the number of remaining bytes, which bounds the number of words,
so the `0` case is never reached from `sentenceSteps`. -/
def sentenceStepsGo : Nat → List Nat → List (Except SentenceError Word) × IterEnd
  | 0, _ => ([], .panic)
  | fuel + 1, data =>
    if data = [] then ([], .clean)
    else
      match read_length data with
      | none => ([], .panic)
      | some (.error e) => ([.error e], .sticky)
      | some (.ok (len, br)) =>
        if len = 0 then ([], .clean)
        else if len ≤ (data.drop br).length then
          let w := (wordTryFrom ((data.drop br).take len)).mapError SentenceError.wordError
          let p := sentenceStepsGo fuel (data.drop (br + len))
          (w :: p.1, p.2)
        else ([.error .prefixLength], .clean)

/-- All items yielded by iterating `Sentence::new data`, with the way
iteration ends. -/
def sentenceSteps (data : List Nat) : List (Except SentenceError Word) × IterEnd :=
  sentenceStepsGo (data.length + 1) data

/-! ## Response parser (`src/protocol/mod.rs`, `src/protocol/error.rs`)

`CommandResponse::try_from(Sentence)` consumes the word iterator.  The
model mirrors it over the iterator's item list and end marker: pulling
past the items when the end is `panic` is a panic (`none`); the parser
stops at the first `Err` item, so a `sticky` end never loops here. -/

/-- Model of `MissingWord` (`src/protocol/error.rs:111-118`). -/
inductive MissingWord
  | tag
  | category
  | message
deriving DecidableEq

/-- Model of `TrapCategory` (`src/protocol/mod.rs:221-238`). -/
inductive TrapCategory
  | missingItemOrCommand
  | argumentValueFailure
  | commandExecutionInterrupted
  | scriptingFailure
  | generalFailure
  | apiFailure
  | ttyFailure
  | returnValue
deriving DecidableEq

/-- Model of `TrapCategoryError` (`src/protocol/mod.rs:275-289`).
`Invalid` carries a `ParseIntError` the code never inspects. -/
inductive TrapCategoryError
  | invalid
  | outOfRange (n : Nat)
  | invalidAttribute (key : List Nat) (value : Option (List Nat))
  | missingMessageAttribute
deriving DecidableEq

/-- Model of `ProtocolError` (`src/protocol/error.rs:8-35`). -/
inductive ProtocolError
  | sentence (e : SentenceError)
  | incomplete (m : MissingWord)
  | wordSequence (word : WordType) (expected : List WordType)
  | trapCategory (e : TrapCategoryError)
deriving DecidableEq

/-- Model of `TryFrom<u8> for TrapCategory`
(`src/protocol/mod.rs:240-256`). -/
def trapCategoryOfNat : Nat → Except TrapCategoryError TrapCategory
  | 0 => .ok .missingItemOrCommand
  | 1 => .ok .argumentValueFailure
  | 2 => .ok .commandExecutionInterrupted
  | 3 => .ok .scriptingFailure
  | 4 => .ok .generalFailure
  | 5 => .ok .apiFailure
  | 6 => .ok .ttyFailure
  | 7 => .ok .returnValue
  | n => .error (.outOfRange n)

/-- Model of `TryFrom<&str> for TrapCategory`
(`src/protocol/mod.rs:258-267`): parse the value as `u8`, then check the
range. -/
def trapCategoryOfStr (s : List Nat) : Except ProtocolError TrapCategory :=
  match parse_u8 s with
  | none => .error (.trapCategory .invalid)
  | some n =>
    match trapCategoryOfNat n with
    | .ok c => .ok c
    | .error e => .error (.trapCategory e)

/-- Model of `CommandResponse` (`src/protocol/mod.rs:25-34`).  Reply
attributes model the `HashMap<String, Option<String>>` as an association
list with insert-replaces semantics.

The `empty` variant: `src/protocol/word.rs` recognises the `!empty`
category and `src/actor.rs` consumes a `CommandResponse::Empty(..)` with
a `tag` field, but the snapshot's `src/protocol/mod.rs` match carries no
arm for it.  Modelled from the spec: `!empty` is "a valid category that
is terminal without a payload", handled like `!done` (tag only). -/
inductive CommandResponse
  | done (tag : Nat)
  | reply (tag : Nat) (attributes : List (List Nat × Option (List Nat)))
  | trap (tag : Nat) (category : Option TrapCategory) (message : List Nat)
  | fatal (reason : List Nat)
  | empty (tag : Nat)
deriving DecidableEq

/-- Model of `CommandResponse::tag` (`src/protocol/mod.rs:40-48`):
`Fatal` carries no tag. -/
def responseTag : CommandResponse → Option Nat
  | .done t => some t
  | .reply t _ => some t
  | .trap t _ _ => some t
  | .fatal _ => none
  | .empty t => some t

/-- `HashMap::insert` on the association-list model: replace the entry
with the same key, else append. -/
def insertAttr : List (List Nat × Option (List Nat)) → List Nat → Option (List Nat) →
    List (List Nat × Option (List Nat))
  | [], k, v => [(k, v)]
  | (k', v') :: rest, k, v =>
    if k' = k then (k, v) :: rest else (k', v') :: insertAttr rest k v

/-- `!done` branch of `CommandResponse::try_from`
(`src/protocol/mod.rs:64-75`): the next word must exist (`MissingTag`
otherwise) and be a tag. -/
def parseDone (items : List (Except SentenceError Word)) (ek : IterEnd) :
    Option (Except ProtocolError CommandResponse) :=
  match items with
  | [] =>
    match ek with
    | .panic => none
    | _ => some (.error (.incomplete .tag))
  | .error e :: _ => some (.error (.sentence e))
  | .ok w :: _ =>
    match w with
    | .tag t => some (.ok (.done t))
    | w => some (.error (.wordSequence (wordTypeOf w) [.tag]))

/-- `!empty` branch.  Modelled from the spec (see `CommandResponse`):
terminal and tag-only, like `!done`. -/
def parseEmpty (items : List (Except SentenceError Word)) (ek : IterEnd) :
    Option (Except ProtocolError CommandResponse) :=
  match items with
  | [] =>
    match ek with
    | .panic => none
    | _ => some (.error (.incomplete .tag))
  | .error e :: _ => some (.error (.sentence e))
  | .ok w :: _ =>
    match w with
    | .tag t => some (.ok (.empty t))
    | w => some (.error (.wordSequence (wordTypeOf w) [.tag]))

/-- `!fatal` branch (`src/protocol/mod.rs:148-160`): the next word must
exist (`MissingWord::Message` otherwise) and be a message. -/
def parseFatal (items : List (Except SentenceError Word)) (ek : IterEnd) :
    Option (Except ProtocolError CommandResponse) :=
  match items with
  | [] =>
    match ek with
    | .panic => none
    | _ => some (.error (.incomplete .message))
  | .error e :: _ => some (.error (.sentence e))
  | .ok w :: _ =>
    match w with
    | .message m => some (.ok (.fatal m))
    | w => some (.error (.wordSequence (wordTypeOf w) [.message]))

/-- `!re` loop (`src/protocol/mod.rs:76-101`).  Note the source closes a
missing tag with `MissingWord::Category`, not `MissingWord::Tag`
(line 98). -/
def parseReplyLoop (items : List (Except SentenceError Word)) (ek : IterEnd)
    (tag? : Option Nat) (attrs : List (List Nat × Option (List Nat))) :
    Option (Except ProtocolError CommandResponse) :=
  match items with
  | [] =>
    match ek with
    | .panic => none
    | _ =>
      match tag? with
      | some t => some (.ok (.reply t attrs))
      | none => some (.error (.incomplete .category))
  | .error e :: _ => some (.error (.sentence e))
  | .ok w :: rest =>
    match w with
    | .tag t => parseReplyLoop rest ek (some t) attrs
    | .attribute a => parseReplyLoop rest ek tag? (insertAttr attrs a.key a.value)
    | w => some (.error (.wordSequence (wordTypeOf w) [.tag, .attribute]))

/-- `!trap` loop (`src/protocol/mod.rs:102-147`).  Attribute handling:
`category` re-parses (and can reset) the category, `message` replaces
the message, any other key raises `InvalidAttribute`.  After the loop
the tag is checked first — again closed with `MissingWord::Category`
(line 139) — then the message (`MissingMessageAttribute`). -/
def parseTrapLoop (items : List (Except SentenceError Word)) (ek : IterEnd)
    (tag? : Option Nat) (cat? : Option TrapCategory) (msg? : Option (List Nat)) :
    Option (Except ProtocolError CommandResponse) :=
  match items with
  | [] =>
    match ek with
    | .panic => none
    | _ =>
      match tag? with
      | none => some (.error (.incomplete .category))
      | some t =>
        match msg? with
        | none => some (.error (.trapCategory .missingMessageAttribute))
        | some m => some (.ok (.trap t cat? m))
  | .error e :: _ => some (.error (.sentence e))
  | .ok w :: rest =>
    match w with
    | .tag t => parseTrapLoop rest ek (some t) cat? msg?
    | .attribute a =>
      if a.key = asciiBytes "category" then
        match a.value with
        | none => parseTrapLoop rest ek tag? none msg?
        | some v =>
          match trapCategoryOfStr v with
          | .ok c => parseTrapLoop rest ek tag? (some c) msg?
          | .error e => some (.error e)
      else if a.key = asciiBytes "message" then
        parseTrapLoop rest ek tag? cat? a.value
      else some (.error (.trapCategory (.invalidAttribute a.key a.value)))
    | w => some (.error (.wordSequence (wordTypeOf w) [.tag, .attribute]))

/-- Model of `CommandResponse::try_from(Sentence)`
(`src/protocol/mod.rs:50-163`) applied to a packet's bytes: the first
word must exist (`MissingWord::Category`) and be a category; the
category selects the branch.  `none` is a Rust panic inside sentence
iteration. -/
def parseResponse (data : List Nat) : Option (Except ProtocolError CommandResponse) :=
  match sentenceSteps data with
  | (items, ek) =>
    match items with
    | [] =>
      match ek with
      | .panic => none
      | _ => some (.error (.incomplete .category))
    | .error e :: _ => some (.error (.sentence e))
    | .ok w :: rest =>
      match w with
      | .category c =>
        match c with
        | .done => parseDone rest ek
        | .reply => parseReplyLoop rest ek none []
        | .trap => parseTrapLoop rest ek none none none
        | .fatal => parseFatal rest ek
        | .empty => parseEmpty rest ek
      | w => some (.error (.wordSequence (wordTypeOf w) [.category]))

/-! ## The actor's packet splitter (`src/actor.rs:62-65`)

`while let Some(null_idx) = packet_buf.iter().position(|&b| b == 0)
{ let packet = packet_buf.drain(..=null_idx); ... }`: packets are split
at the *first zero byte*, whether or not that byte is a sentence
terminator; the zero-free remainder stays in the buffer. -/

/-- One `position(0)` + `drain(..=idx)` step: the prefix up to and
including the first zero byte, and the rest; `none` when the buffer
holds no zero byte. -/
def takeToZero : List Nat → Option (List Nat × List Nat)
  | [] => none
  | b :: rest =>
    if b = 0 then some ([0], rest)
    else
      match takeToZero rest with
      | none => none
      | some (p, t) => some (b :: p, t)

/-- Fuel-indexed worker for the drain loop. -/
def drainPacketsGo : Nat → List Nat → List (List Nat) × List Nat
  | 0, buf => ([], buf)
  | fuel + 1, buf =>
    match takeToZero buf with
    | none => ([], buf)
    | some (p, t) =>
      let r := drainPacketsGo fuel t
      (p :: r.1, r.2)

/-- All packets drained from the buffer by the actor's splitter loop, and
the remainder left in the buffer for the next read. -/
def drainPackets (buf : List Nat) : List (List Nat) × List Nat :=
  drainPacketsGo (buf.length + 1) buf

/-! ## The actor's routing step (`src/actor.rs:117-201`, `:92-101`)

The pending table `HashMap<u16, Sender<..>>` is modelled as an
association list; delivery sinks are opaque identifiers.  `processPacket`
returns the new table, the `send` calls issued (sink, value), the byte
sequences written to the socket, and whether the shutdown flag was set.
Whether a `send` succeeds depends on the receiver still being alive;
that environment is the `alive` parameter, consulted exactly where the
source consults the send result (the `Reply` branch).  `cancelWriteOk`
is the result of the cancel write in that same branch.  `none` models a
panic inside sentence iteration or the infinite loop of the tag
extraction scan on a sticky length-decode error. -/

/-- Model of `DeviceError` (`src/error.rs:14-34`), restricted to the
variants `process_packet` produces: connection errors and wrapped
protocol errors (`DeviceError::from(protocol_error)`,
`src/actor.rs:186`). -/
inductive DeviceError
  | connectionAborted
  | protocol (e : ProtocolError)
deriving DecidableEq

/-- A value passed to `Sender::send`: `Ok(response)` or `Err(error)`. -/
inductive DeliveredMsg
  | ok (r : CommandResponse)
  | err (e : DeviceError)
deriving DecidableEq

/-- `HashMap::get` on the association-list table. -/
def lookupTag (table : List (Nat × Nat)) (t : Nat) : Option Nat :=
  match table.find? (fun p => p.1 == t) with
  | some p => some p.2
  | none => none

/-- `HashMap::remove` on the association-list table. -/
def removeTag (table : List (Nat × Nat)) (t : Nat) : List (Nat × Nat) :=
  table.filter (fun p => p.1 != t)

/-- Decimal digits (ASCII) of `n`, i.e. `n.to_string()`. -/
def decimalBytes (n : Nat) : List Nat := (Nat.toDigits 10 n).map Char.toNat

/-- Model of `CommandBuilder::cancel(tag).data`
(`src/protocol/command.rs:110-117`): `/cancel`, the `.tag=<tag>` word,
the `=tag=<tag>` attribute, and the terminator. -/
def cancelBytes (tag : Nat) : List Nat :=
  write_word (asciiBytes "/cancel") ++
    write_word (asciiBytes ".tag=" ++ decimalBytes tag) ++
    write_word (asciiBytes "=tag=" ++ decimalBytes tag) ++ write_len 0

/-- Result of the tag-extraction scan over a malformed packet
(`src/actor.rs:179-184`): `find_map` over the words, skipping `Err`
items.  On a `sticky` length-decode error with no earlier tag word the
scan re-reads the same error forever (`diverge`); with a `panic` end it
panics. -/
inductive ExtractResult
  | found (t : Nat)
  | notFound
  | diverge
  | panicked
deriving DecidableEq

/-- First tag word among the yielded items. -/
def extractTagFromItems : List (Except SentenceError Word) → Option Nat
  | [] => none
  | .ok (.tag t) :: _ => some t
  | _ :: rest => extractTagFromItems rest

/-- The tag extraction `Sentence::new(packet).find_map(..)`. -/
def extractTag (data : List Nat) : ExtractResult :=
  match sentenceSteps data with
  | (items, ek) =>
    match extractTagFromItems items with
    | some t => .found t
    | none =>
      match ek with
      | .clean => .notFound
      | .sticky => .diverge
      | .panic => .panicked

/-- Outcome of one `process_packet` call. -/
structure PacketOutcome where
  table : List (Nat × Nat)
  deliveries : List (Nat × DeliveredMsg)
  writes : List (List Nat)
  shutdown : Bool
deriving DecidableEq

/-- Model of `process_packet` (`src/actor.rs:117-201`). -/
def processPacket (alive : Nat → Bool) (cancelWriteOk : Bool) (packet : List Nat)
    (table : List (Nat × Nat)) : Option PacketOutcome :=
  match parseResponse packet with
  | none => none
  | some (.ok r) =>
    match r with
    | .done t =>
      match lookupTag table t with
      | some s => some ⟨removeTag table t, [(s, .ok (.done t))], [], false⟩
      | none => some ⟨table, [], [], false⟩
    | .empty t =>
      match lookupTag table t with
      | some s => some ⟨removeTag table t, [(s, .ok (.empty t))], [], false⟩
      | none => some ⟨table, [], [], false⟩
    | .reply t attrs =>
      match lookupTag table t with
      | none => some ⟨table, [], [], false⟩
      | some s =>
        if alive s then some ⟨table, [(s, .ok (.reply t attrs))], [], false⟩
        else
          some ⟨removeTag table t, [(s, .ok (.reply t attrs))], [cancelBytes t],
            !cancelWriteOk⟩
    | .trap t c m =>
      match lookupTag table t with
      | some s => some ⟨removeTag table t, [(s, .ok (.trap t c m))], [], false⟩
      | none => some ⟨table, [], [], false⟩
    | .fatal reason =>
      some ⟨[], table.map (fun p => (p.2, .ok (.fatal reason))), [], true⟩
  | some (.error e) =>
    match extractTag packet with
    | .found t =>
      match lookupTag table t with
      | some s => some ⟨removeTag table t, [(s, .err (.protocol e))], [], false⟩
      | none => some ⟨table, [], [], false⟩
    | .notFound =>
      some ⟨[], table.map (fun p => (p.2, .err (.protocol e))), [], false⟩
    | .diverge => none
    | .panicked => none

/-- The actor loop state that the shutdown decision depends on. -/
structure EngineState where
  table : List (Nat × Nat)
  shutdown : Bool
deriving DecidableEq

/-- Outcome of one handled loop event. -/
structure EventOutcome where
  state : EngineState
  writes : List (List Nat)
  deliveries : List (Nat × DeliveredMsg)
deriving DecidableEq

/-- Model of the `None` arm of the submit-channel receive
(`src/actor.rs:92-101`): drain the pending table, write a `/cancel` for
every pending tag, deliver nothing, set the shutdown flag. -/
def handleSubmitClosed (s : EngineState) : EventOutcome :=
  ⟨⟨[], true⟩, s.table.map (fun p => cancelBytes p.1), []⟩

/-- The main-loop guard `while !shutdown` (`src/actor.rs:46`). -/
def loopContinues (s : EngineState) : Bool := !s.shutdown

theorem char_utf8Size_pos (c : Char) : 1 ≤ c.utf8Size := by
  simp only [Char.utf8Size]
  split <;> try split
  all_goals first | omega | (split <;> omega)

theorem length_le_utf8ByteLen (s : List Char) : s.length ≤ utf8ByteLen s := by
  induction s with
  | nil => simp [utf8ByteLen]
  | cons c cs ih =>
    have := char_utf8Size_pos c
    simp only [utf8ByteLen, List.map_cons, List.sum_cons, List.length_cons]
    simp only [utf8ByteLen] at ih
    omega

/-- The validator is inert: because `chars().nth` is consulted at a byte
index that can only be at least the byte length (hence at least the char
count), the error branch is unreachable and every input is accepted. -/
theorem check_latin1_accepts_everything (value : List Char) :
    check_latin1 value = .ok () := by
  unfold check_latin1
  simp only []
  split
  · rename_i hge
    have h1 : utf8ByteLen value ≤ str_latin1_up_to value := hge
    have h2 : value.length ≤ str_latin1_up_to value :=
      le_trans (length_le_utf8ByteLen value) h1
    have : value.get? (str_latin1_up_to value) = none := List.get?_eq_none.mpr h2
    simp only [this]
  · rfl

/-! ### Bit-arithmetic helpers for the codec proofs -/

theorem lor_eq_add_of_lt {x c k : Nat} (hx : x < 2 ^ k) (hc : c % 2 ^ k = 0) :
    x ||| c = c + x := by
  have hdvd : 2 ^ k ∣ c := Nat.dvd_of_mod_eq_zero hc
  obtain ⟨m, rfl⟩ := hdvd
  have hmod : (x ||| 2 ^ k * m) % 2 ^ k = x := by
    apply Nat.eq_of_testBit_eq
    intro i
    rw [Nat.testBit_mod_two_pow, Nat.testBit_lor]
    by_cases hik : i < k
    · have hcbit : (2 ^ k * m).testBit i = false := by
        have h0 : (2 ^ k * m) % 2 ^ k = 0 := by
          simp [Nat.mul_mod_right]
        have := Nat.testBit_mod_two_pow (2 ^ k * m) k i
        rw [h0] at this
        simp only [Nat.zero_testBit] at this
        have hdec : decide (i < k) = true := decide_eq_true hik
        rw [hdec] at this
        simpa using this.symm
      simp [hik, hcbit]
    · have hxbit : x.testBit i = false :=
        Nat.testBit_lt_two_pow (lt_of_lt_of_le hx (Nat.pow_le_pow_right (by norm_num) (by omega)))
      simp [hik, hxbit]
  have hdiv : (x ||| 2 ^ k * m) / 2 ^ k = m := by
    have hsh : (x ||| 2 ^ k * m) >>> k = (2 ^ k * m) >>> k := by
      apply Nat.eq_of_testBit_eq
      intro j
      rw [Nat.testBit_shiftRight, Nat.testBit_shiftRight, Nat.testBit_lor]
      have hxbit : x.testBit (k + j) = false :=
        Nat.testBit_lt_two_pow (lt_of_lt_of_le hx (Nat.pow_le_pow_right (by norm_num) (by omega)))
      simp [hxbit]
    rw [Nat.shiftRight_eq_div_pow, Nat.shiftRight_eq_div_pow] at hsh
    rw [hsh, Nat.mul_div_cancel_left _ (Nat.pow_pos (by norm_num))]
  have := Nat.div_add_mod (x ||| 2 ^ k * m) (2 ^ k)
  rw [hdiv, hmod] at this
  omega

theorem and_255_eq_mod (x : Nat) : x &&& 0xFF = x % 256 := by
  have := Nat.and_pow_two_sub_one_eq_mod x 8
  norm_num at this
  exact this

theorem and_128_of_lt : ∀ x < 128, x &&& 0x80 = 0 := by decide

theorem byte2_bits : ∀ q < 64,
    ((128 + q) &&& 0x80 = 0) = False ∧ (128 + q) &&& 0xC0 = 0x80 ∧
      (128 + q) &&& 0xFFFFFF3F = q := by decide

theorem byte3_bits : ∀ q < 32,
    ((192 + q) &&& 0x80 = 0) = False ∧ ((192 + q) &&& 0xC0 = 0x80) = False ∧
      (192 + q) &&& 0xE0 = 0xC0 ∧ (192 + q) &&& 0xFFFFFF1F = q := by decide

theorem byte4_bits : ∀ q < 16,
    ((224 + q) &&& 0x80 = 0) = False ∧ ((224 + q) &&& 0xC0 = 0x80) = False ∧
      ((224 + q) &&& 0xE0 = 0xC0) = False ∧ (224 + q) &&& 0xF0 = 0xE0 ∧
      (224 + q) &&& 0xFFFFFF0F = q := by decide

theorem write_len_length (L : Nat) : (write_len L).length = prefixWidth L := by
  unfold write_len prefixWidth
  split_ifs <;> rfl

/-- Round-trip of the length codec, stated with an arbitrary suffix so it
also drives the sentence-iterator proofs: decoding bytes written by
`write_len` recovers the length and consumes exactly the prefix width. -/
theorem read_length_write_len_append (L : Nat) (hL : L < 2 ^ 32) (rest : List Nat) :
    read_length (write_len L ++ rest) = some (.ok (L, prefixWidth L)) := by
  unfold write_len prefixWidth
  split_ifs with h1 h2 h3 h4
  · -- 1-byte prefix
    simp only [List.cons_append, List.nil_append, read_length,
      and_128_of_lt L (by omega)]
    simp
  · -- 2-byte prefix
    have hor : L ||| 0x8000 = 0x8000 + L := by
      apply lor_eq_add_of_lt (k := 15) (by omega) (by norm_num)
    have hb0 : ((L ||| 0x8000) >>> 8) &&& 0xFF = 128 + L / 256 := by
      rw [hor, Nat.shiftRight_eq_div_pow, and_255_eq_mod]
      norm_num
      omega
    have hb1 : (L ||| 0x8000) &&& 0xFF = L % 256 := by
      rw [hor, and_255_eq_mod]
      omega
    obtain ⟨hc1, hc2, hmask⟩ := byte2_bits (L / 256) (by omega)
    simp only [hb0, hb1, List.cons_append, List.nil_append, read_length,
      hc1, hc2, if_false, if_true, hmask, Nat.shiftLeft_eq]
    norm_num
    omega
  · -- 3-byte prefix
    have hor : L ||| 0xC00000 = 0xC00000 + L := by
      apply lor_eq_add_of_lt (k := 21) (by omega) (by norm_num)
    have hb0 : ((L ||| 0xC00000) >>> 16) &&& 0xFF = 192 + L / 65536 := by
      rw [hor, Nat.shiftRight_eq_div_pow, and_255_eq_mod]
      norm_num
      omega
    have hb1 : ((L ||| 0xC00000) >>> 8) &&& 0xFF = L / 256 % 256 := by
      rw [hor, Nat.shiftRight_eq_div_pow, and_255_eq_mod]
      norm_num
      omega
    have hb2 : (L ||| 0xC00000) &&& 0xFF = L % 256 := by
      rw [hor, and_255_eq_mod]
      omega
    obtain ⟨hc1, hc2, hc3, hmask⟩ := byte3_bits (L / 65536) (by omega)
    simp only [hb0, hb1, hb2, List.cons_append, List.nil_append, read_length,
      hc1, hc2, hc3, if_false, if_true, hmask, Nat.shiftLeft_eq]
    norm_num
    omega
  · -- 4-byte prefix
    have hor : L ||| 0xE0000000 = 0xE0000000 + L := by
      apply lor_eq_add_of_lt (k := 29) (by omega) (by norm_num)
    have hb0 : ((L ||| 0xE0000000) >>> 24) &&& 0xFF = 224 + L / 16777216 := by
      rw [hor, Nat.shiftRight_eq_div_pow, and_255_eq_mod]
      norm_num
      omega
    have hb1 : ((L ||| 0xE0000000) >>> 16) &&& 0xFF = L / 65536 % 256 := by
      rw [hor, Nat.shiftRight_eq_div_pow, and_255_eq_mod]
      norm_num
      omega
    have hb2 : ((L ||| 0xE0000000) >>> 8) &&& 0xFF = L / 256 % 256 := by
      rw [hor, Nat.shiftRight_eq_div_pow, and_255_eq_mod]
      norm_num
      omega
    have hb3 : (L ||| 0xE0000000) &&& 0xFF = L % 256 := by
      rw [hor, and_255_eq_mod]
      omega
    obtain ⟨hc1, hc2, hc3, hc4, hmask⟩ := byte4_bits (L / 16777216) (by omega)
    simp only [hb0, hb1, hb2, hb3, List.cons_append, List.nil_append, read_length,
      hc1, hc2, hc3, hc4, if_false, if_true, hmask, Nat.shiftLeft_eq]
    norm_num
    omega
  · -- 5-byte prefix
    have hb1 : (L >>> 24) &&& 0xFF = L / 16777216 % 256 := by
      rw [Nat.shiftRight_eq_div_pow, and_255_eq_mod]
    have hb2 : (L >>> 16) &&& 0xFF = L / 65536 % 256 := by
      rw [Nat.shiftRight_eq_div_pow, and_255_eq_mod]
    have hb3 : (L >>> 8) &&& 0xFF = L / 256 % 256 := by
      rw [Nat.shiftRight_eq_div_pow, and_255_eq_mod]
    have hb4 : L &&& 0xFF = L % 256 := and_255_eq_mod L
    have hc1 : ((0xF0 : Nat) &&& 0x80 = 0) = False := by decide
    have hc2 : ((0xF0 : Nat) &&& 0xC0 = 0x80) = False := by decide
    have hc3 : ((0xF0 : Nat) &&& 0xE0 = 0xC0) = False := by decide
    have hc4 : ((0xF0 : Nat) &&& 0xF0 = 0xE0) = False := by decide
    have hc5 : ((0xF0 : Nat) &&& 0xF8 = 0xF0) = True := by decide
    simp only [hb1, hb2, hb3, hb4, List.cons_append, List.nil_append, read_length,
      hc1, hc2, hc3, hc4, hc5, if_false, if_true, Nat.shiftLeft_eq]
    norm_num
    omega

theorem utf8Tail_shorter {b : Nat} {rest r : List Nat} (h : utf8Tail b rest = some r) :
    r.length < rest.length + 1 := by
  unfold utf8Tail utf8Step2 utf8Step3 utf8Step4 at h
  repeat' split at h
  all_goals
    first
      | (injection h
         done)
      | (injection h with h'
         subst h'
         simp only [List.length_cons]
         omega)

theorem isValidUtf8Go_congr (f₁ : Nat) :
    ∀ f₂ s, s.length < f₁ → s.length < f₂ →
      isValidUtf8Go f₁ s = isValidUtf8Go f₂ s := by
  induction f₁ with
  | zero => intro f₂ s h1; omega
  | succ f₁ ih =>
    intro f₂ s h1 h2
    match f₂ with
    | 0 => omega
    | f₂ + 1 =>
      match s with
      | [] => rfl
      | b :: rest =>
        unfold isValidUtf8Go
        simp only [List.length_cons] at h1 h2
        split
        · exact ih f₂ rest (by omega) (by omega)
        · match ht : utf8Tail b rest with
          | none => simp
          | some r =>
            have := utf8Tail_shorter ht
            simp only []
            exact ih f₂ r (by omega) (by omega)

theorem read_length_consumed_pos {d : List Nat} {len br : Nat}
    (h : read_length d = some (.ok (len, br))) : 1 ≤ br := by
  match d with
  | [] => simp [read_length] at h
  | c :: rest =>
    unfold read_length at h
    repeat' split at h
    all_goals simp_all
    all_goals omega

theorem sentenceStepsGo_congr (f₁ : Nat) :
    ∀ f₂ data, data.length < f₁ → data.length < f₂ →
      sentenceStepsGo f₁ data = sentenceStepsGo f₂ data := by
  induction f₁ with
  | zero => intro f₂ data h1; omega
  | succ f₁ ih =>
    intro f₂ data h1 h2
    match f₂ with
    | 0 => omega
    | f₂ + 1 =>
      unfold sentenceStepsGo
      split
      · rfl
      · rename_i hne
        match hrl : read_length data with
        | none => simp
        | some (.error e) => simp
        | some (.ok (len, br)) =>
          simp only []
          split
          · rfl
          · split
            · rename_i hlen hle
              have hbr : 1 ≤ br := read_length_consumed_pos hrl
              have hdrop : (data.drop (br + len)).length = data.length - (br + len) := by
                simp [List.length_drop]
              have hdlen : data.length ≠ 0 := by
                intro h0
                exact hne (List.eq_nil_of_length_eq_zero h0)
              rw [ih f₂ (data.drop (br + len)) (by omega) (by omega)]
            · rfl

/-- Iterating a well-formed encoded sentence yields exactly the
`Word::try_from` results of its words, ending cleanly at the zero
terminator. -/
theorem sentenceSteps_encode (ws : List (List Nat))
    (h : ∀ w ∈ ws, w ≠ [] ∧ w.length < 2 ^ 32) :
    sentenceSteps (encodeSentence ws) =
      (ws.map (fun w => (wordTryFrom w).mapError SentenceError.wordError), .clean) := by
  induction ws with
  | nil => rfl
  | cons w ws ih =>
    obtain ⟨hne, hlt⟩ := h w (List.mem_cons_self w ws)
    have hws : ∀ w' ∈ ws, w' ≠ [] ∧ w'.length < 2 ^ 32 :=
      fun w' hm => h w' (List.mem_cons_of_mem w hm)
    have hdata : encodeSentence (w :: ws) =
        write_len w.length ++ (w ++ encodeSentence ws) := by
      simp [encodeSentence, write_word, List.append_assoc]
    have hwidth : (write_len w.length).length = prefixWidth w.length :=
      write_len_length w.length
    have hwpos : 1 ≤ prefixWidth w.length := by
      unfold prefixWidth
      split_ifs <;> omega
    have hwlen0 : w.length ≠ 0 := fun h0 => hne (List.eq_nil_of_length_eq_zero h0)
    have hrl : read_length (encodeSentence (w :: ws)) =
        some (.ok (w.length, prefixWidth w.length)) := by
      rw [hdata]
      exact read_length_write_len_append w.length hlt (w ++ encodeSentence ws)
    have hdrop : (encodeSentence (w :: ws)).drop (prefixWidth w.length) =
        w ++ encodeSentence ws := by
      rw [hdata, ← hwidth, List.drop_left]
    have hdrop2 : (encodeSentence (w :: ws)).drop (prefixWidth w.length + w.length) =
        encodeSentence ws := by
      rw [hdata, ← hwidth]
      rw [show (write_len w.length).length + w.length =
        (write_len w.length ++ w).length by simp]
      rw [← List.append_assoc, List.drop_left]
    have hlen : (encodeSentence (w :: ws)).length =
        prefixWidth w.length + w.length + (encodeSentence ws).length := by
      rw [hdata]
      simp [hwidth]
      omega
    have hne2 : encodeSentence (w :: ws) ≠ [] := by
      intro h0
      have := congrArg List.length h0
      simp [hlen] at this
      omega
    unfold sentenceSteps sentenceStepsGo
    simp only [if_neg hne2, hrl]
    rw [if_neg hwlen0]
    rw [hdrop, hdrop2]
    have hle : w.length ≤ (w ++ encodeSentence ws).length := by
      simp
    rw [if_pos hle, List.take_left]
    have hcong : sentenceStepsGo (encodeSentence (w :: ws)).length (encodeSentence ws) =
        sentenceStepsGo ((encodeSentence ws).length + 1) (encodeSentence ws) := by
      apply sentenceStepsGo_congr
      · omega
      · omega
    rw [hcong]
    have := ih hws
    unfold sentenceSteps at this
    rw [this]
    simp

theorem takeToZero_shorter :
    ∀ {buf p t : List Nat}, takeToZero buf = some (p, t) → t.length < buf.length := by
  intro buf
  induction buf with
  | nil => intro p t h; simp [takeToZero] at h
  | cons b rest ih =>
    intro p t h
    unfold takeToZero at h
    split at h
    · simp only [Option.some.injEq, Prod.mk.injEq] at h
      obtain ⟨-, rfl⟩ := h
      simp
    · match hrec : takeToZero rest with
      | none => rw [hrec] at h; simp at h
      | some (p', t') =>
        rw [hrec] at h
        simp only [Option.some.injEq, Prod.mk.injEq] at h
        obtain ⟨-, rfl⟩ := h
        have := ih hrec
        simp
        omega

theorem drainPacketsGo_congr (f₁ : Nat) :
    ∀ f₂ buf, buf.length < f₁ → buf.length < f₂ →
      drainPacketsGo f₁ buf = drainPacketsGo f₂ buf := by
  induction f₁ with
  | zero => intro f₂ buf h1; omega
  | succ f₁ ih =>
    intro f₂ buf h1 h2
    match f₂ with
    | 0 => omega
    | f₂ + 1 =>
      unfold drainPacketsGo
      match hz : takeToZero buf with
      | none => simp
      | some (p, t) =>
        have := takeToZero_shorter hz
        simp only []
        rw [ih f₂ t (by omega) (by omega)]

/-! ## Supporting lemmas for the splitter theorems -/

theorem takeToZero_of_no_zero :
    ∀ {buf : List Nat}, (0 : Nat) ∉ buf → takeToZero buf = none := by
  intro buf
  induction buf with
  | nil => intro _; rfl
  | cons b rest ih =>
    intro h
    have hb : b ≠ 0 := fun h0 => h (h0 ▸ List.mem_cons_self b rest)
    have hr : (0 : Nat) ∉ rest := fun hm => h (List.mem_cons_of_mem b hm)
    unfold takeToZero
    rw [if_neg hb, ih hr]

theorem takeToZero_body {b : List Nat} (hb : (0 : Nat) ∉ b) (rest : List Nat) :
    takeToZero (b ++ 0 :: rest) = some (b ++ [0], rest) := by
  induction b with
  | nil => simp [takeToZero]
  | cons x xs ih =>
    have hx : x ≠ 0 := fun h0 => hb (h0 ▸ List.mem_cons_self x xs)
    have hxs : (0 : Nat) ∉ xs := fun hm => hb (List.mem_cons_of_mem x hm)
    simp only [List.cons_append]
    unfold takeToZero
    rw [if_neg hx, ih hxs]

theorem drainPacketsGo_spec (bodies : List (List Nat)) :
    ∀ (tail : List Nat) (fuel : Nat), (∀ b ∈ bodies, (0 : Nat) ∉ b) →
      (0 : Nat) ∉ tail →
      ((bodies.map (fun b => b ++ [0])).flatten ++ tail).length < fuel →
      drainPacketsGo fuel ((bodies.map (fun b => b ++ [0])).flatten ++ tail) =
        (bodies.map (fun b => b ++ [0]), tail) := by
  induction bodies with
  | nil =>
    intro tail fuel _ ht hf
    simp only [List.map_nil, List.flatten_nil, List.nil_append] at hf ⊢
    match fuel with
    | 0 => omega
    | fuel + 1 =>
      unfold drainPacketsGo
      rw [takeToZero_of_no_zero ht]
  | cons b bodies ih =>
    intro tail fuel hb ht hf
    have hb0 : (0 : Nat) ∉ b := hb b (List.mem_cons_self b bodies)
    have hbs : ∀ x ∈ bodies, (0 : Nat) ∉ x := fun x hm => hb x (List.mem_cons_of_mem b hm)
    have hshape : ((b :: bodies).map (fun x => x ++ [0])).flatten ++ tail =
        b ++ 0 :: ((bodies.map (fun x => x ++ [0])).flatten ++ tail) := by
      simp
    match fuel with
    | 0 => omega
    | fuel + 1 =>
      rw [hshape] at hf ⊢
      unfold drainPacketsGo
      rw [takeToZero_body hb0]
      have hlen : ((bodies.map (fun x => x ++ [0])).flatten ++ tail).length < fuel := by
        simp only [List.length_append, List.length_cons] at hf ⊢
        omega
      simp only [ih tail fuel hbs ht hlen]
      simp

theorem write_word_short {w : List Nat} (hw : w.length ≤ 0x7F) :
    write_word w = w.length :: w := by
  unfold write_word write_len
  rw [if_pos hw]
  rfl

theorem encodeSentence_zero_free (s : List (List Nat))
    (h : ∀ w ∈ s, w ≠ [] ∧ (0 : Nat) ∉ w ∧ w.length ≤ 0x7F) :
    encodeSentence s = (s.map write_word).flatten ++ [0] ∧
      (0 : Nat) ∉ (s.map write_word).flatten := by
  constructor
  · rfl
  · intro hmem
    rw [List.mem_flatten] at hmem
    obtain ⟨l, hl, h0⟩ := hmem
    rw [List.mem_map] at hl
    obtain ⟨w, hw, rfl⟩ := hl
    obtain ⟨hne, hnz, hlen⟩ := h w hw
    rw [write_word_short hlen] at h0
    rcases List.mem_cons.mp h0 with h0 | h0
    · exact hne (List.eq_nil_of_length_eq_zero h0.symm)
    · exact hnz h0

/-! ## Claim theorems -/

/-- **C1** (code bug).  The claim: builder inputs with a character outside
the accepted range are rejected with `CommandError::HasInvalidCharacter`,
and input is never silently substituted.  The code: `check_latin1`
compares `str_latin1_up_to(value)` (a byte index) with `value.len()`
using an inverted condition and then indexes `chars().nth` at a byte
offset, so the error branch is unreachable; here the euro sign U+20AC —
not Latin-1 — is accepted, after which `encode_latin1_lossy` substitutes
it on the wire.  (`check_latin1_accepts_everything` shows no input is
ever rejected.) -/
theorem C1_check_latin1_accepts_non_latin1 :
    check_latin1 [Char.ofNat 0x20AC] = .ok () :=
  check_latin1_accepts_everything _

/-- **C2** (code bug).  The claim: `read_length` never panics and never
reads past the end of the input, for any byte sequence including
truncated prefixes.  The code: `read_length` indexes `data[1]` without a
bounds check; on the 1-byte input `[0x80]` — a truncated 2-byte prefix —
it reads past the end and panics (modelled as `none`). -/
theorem C2_read_length_panics_on_truncation : read_length [0x80] = none := rfl

/-- **C3** (counterexample).  The claim: a buffer holding one complete
well-formed sentence is split into exactly that sentence.  The code
splits at the *first zero byte*: the sentence `[0x01, 0x00, 0x00]` (the
one-byte word `0x00`, then the terminator) — `encodeSentence [[0]]` — is
split into the two packets `[0x01, 0x00]` and `[0x00]`, because the word
content byte `0x00` is taken for a terminator. -/
theorem C3_splitter_counterexample :
    drainPackets (encodeSentence [[0]]) ≠ ([encodeSentence [[0]]], []) ∧
      drainPackets (encodeSentence [[0]]) = ([[0x01, 0x00], [0x00]], []) := by
  constructor
  · decide
  · rfl

/-- **C3** (amended).  For every buffer that is a concatenation of
complete sentences in which the terminating zero is the only zero byte
(first conjunct: sentences given as zero-free bodies plus terminator),
the splitter extracts exactly the sentences, in order and byte-exact,
and a zero-free incomplete tail is preserved unconsumed.  The second
conjunct instantiates this for sentences encoded from words that are
nonempty, zero-free and short enough for a 1-byte length prefix. -/
theorem C3_splitter_on_zero_free_sentences :
    (∀ (bodies : List (List Nat)) (tail : List Nat),
      (∀ b ∈ bodies, (0 : Nat) ∉ b) → (0 : Nat) ∉ tail →
      drainPackets ((bodies.map (fun b => b ++ [0])).flatten ++ tail) =
        (bodies.map (fun b => b ++ [0]), tail)) ∧
    (∀ (sents : List (List (List Nat))) (tail : List Nat),
      (∀ s ∈ sents, ∀ w ∈ s, w ≠ [] ∧ (0 : Nat) ∉ w ∧ w.length ≤ 0x7F) →
      (0 : Nat) ∉ tail →
      drainPackets ((sents.map encodeSentence).flatten ++ tail) =
        (sents.map encodeSentence, tail)) := by
  have main : ∀ (bodies : List (List Nat)) (tail : List Nat),
      (∀ b ∈ bodies, (0 : Nat) ∉ b) → (0 : Nat) ∉ tail →
      drainPackets ((bodies.map (fun b => b ++ [0])).flatten ++ tail) =
        (bodies.map (fun b => b ++ [0]), tail) := by
    intro bodies tail hb ht
    exact drainPacketsGo_spec bodies tail _ hb ht (Nat.lt_succ_self _)
  refine ⟨main, ?_⟩
  intro sents tail hs ht
  have hmap : sents.map encodeSentence =
      (sents.map (fun s => (s.map write_word).flatten)).map (fun b => b ++ [0]) := by
    rw [List.map_map]
    apply List.map_congr_left
    intro s hsmem
    exact ((encodeSentence_zero_free s (hs s hsmem)).1 : _)
  have hzf : ∀ b ∈ sents.map (fun s => (s.map write_word).flatten), (0 : Nat) ∉ b := by
    intro b hmem
    rw [List.mem_map] at hmem
    obtain ⟨s, hsmem, rfl⟩ := hmem
    exact (encodeSentence_zero_free s (hs s hsmem)).2
  rw [hmap]
  exact main _ tail hzf ht

/-- **C3** (witness).  The amended theorem at a concrete input: one
sentence (word `a`, terminator) followed by the incomplete tail `[5]`. -/
theorem C3_splitter_witness :
    drainPackets [1, 97, 0, 5] = ([[1, 97, 0]], [5]) := by
  have h := (C3_splitter_on_zero_free_sentences).1 [[1, 97]] [5]
    (by decide) (by decide)
  simpa using h

/-- **C4** (confirmed).  For every `u32` length `L`, decoding the bytes
written by `write_len` yields exactly `(L, w)` where `w` is the minimal
prefix width for `L` (1 byte for `L ≤ 0x7F`, 2 for `≤ 0x3FFF`, 3 for
`≤ 0x1FFFFF`, 4 for `≤ 0xFFFFFFF`, 5 otherwise), and the encoder emits
exactly `w` bytes. -/
theorem C4_length_codec_roundtrip (L : Nat) (hL : L < 2 ^ 32) :
    read_length (write_len L) = some (.ok (L, prefixWidth L)) ∧
      (write_len L).length = prefixWidth L := by
  constructor
  · have h := read_length_write_len_append L hL []
    simpa using h
  · exact write_len_length L

/-- **C4** (witness).  The round-trip theorem applied at the boundary
value `0x10000000`, the smallest 5-byte-prefix length. -/
theorem C4_length_codec_witness :
    read_length (write_len 0x10000000) = some (.ok (0x10000000, 5)) := by
  have h := (C4_length_codec_roundtrip 0x10000000 (by norm_num)).1
  rw [show prefixWidth 0x10000000 = 5 from rfl] at h
  exact h

theorem lookupTag_removeTag (table : List (Nat × Nat)) (t : Nat) :
    lookupTag (removeTag table t) t = none := by
  induction table with
  | nil => rfl
  | cons p rest ih =>
    by_cases h : p.1 = t
    · simpa [removeTag, h] using ih
    · simpa [removeTag, lookupTag, List.find?, h] using ih

/-- **C8** (confirmed).  Processing a `Fatal` response removes every
entry from the pending table, issues exactly one `Ok(Fatal(reason))`
send per former entry (whose sender is dropped by the drain, closing the
sink), writes nothing to the socket, and sets the shutdown flag. -/
theorem C8_fatal_fans_out (alive : Nat → Bool) (cancelWriteOk : Bool)
    (packet : List Nat) (table : List (Nat × Nat)) (reason : List Nat)
    (h : parseResponse packet = some (.ok (.fatal reason))) :
    processPacket alive cancelWriteOk packet table =
      some ⟨[], table.map (fun p => (p.2, .ok (.fatal reason))), [], true⟩ := by
  unfold processPacket
  rw [h]

/-- **C8** (witness).  The fatal fan-out at a concrete packet
(`!fatal oops`) and a two-entry pending table. -/
theorem C8_fatal_witness :
    processPacket (fun _ => true) true
        (encodeSentence [asciiBytes "!fatal", asciiBytes "oops"]) [(1, 10), (2, 20)] =
      some ⟨[], [(10, .ok (.fatal (asciiBytes "oops"))),
        (20, .ok (.fatal (asciiBytes "oops")))], [], true⟩ := by
  have h := C8_fatal_fans_out (fun _ => true) true
    (encodeSentence [asciiBytes "!fatal", asciiBytes "oops"]) [(1, 10), (2, 20)]
    (asciiBytes "oops") rfl
  simpa using h

/-- **C9** (counterexample).  The claim: closing the submit channel while
commands are pending does not by itself stop the loop before those
commands receive terminal responses.  The code
(`src/actor.rs:46,92-101`): the loop guard is only `!shutdown`, and the
channel-closed arm drains the table, writes `/cancel` per tag, delivers
nothing, and sets the flag — so with the command for tag 1 pending, the
loop stops immediately and the sink receives no terminal response. -/
theorem C9_submit_close_counterexample :
    loopContinues (handleSubmitClosed ⟨[(1, 10)], false⟩).state = false ∧
      (handleSubmitClosed ⟨[(1, 10)], false⟩).deliveries = [] ∧
      (handleSubmitClosed ⟨[(1, 10)], false⟩).state.table = [] := by
  refine ⟨rfl, rfl, rfl⟩

/-- **C9** (amended).  The main loop of `src/actor.rs` continues exactly
while the shutdown flag is clear; when the submit channel closes, the
engine writes a `/cancel` for every pending tag, drains the pending
table without delivering terminal responses, and sets the shutdown flag,
stopping the loop at once even when commands are pending. -/
theorem C9_submit_close_behaviour (s : EngineState) :
    handleSubmitClosed s =
      ⟨⟨[], true⟩, s.table.map (fun p => cancelBytes p.1), []⟩ ∧
      loopContinues s = !s.shutdown :=
  ⟨rfl, rfl⟩

/-- **C10** (confirmed).  When a packet fails to parse and a tag can be
extracted from it, processing removes that tag's pending entry and sends
it the single parse error (the drop of the sender then closes the
stream); every other entry is untouched, nothing is written, shutdown is
not set.  The removed tag no longer resolves, so any subsequent valid
response carrying it is silently dropped: processing it delivers
nothing and changes nothing. -/
theorem C10_parse_error_terminates_stream
    (alive : Nat → Bool) (cancelWriteOk : Bool) (packet : List Nat)
    (table : List (Nat × Nat)) (t s : Nat) (e : ProtocolError)
    (hp : parseResponse packet = some (.error e))
    (hx : extractTag packet = .found t)
    (hl : lookupTag table t = some s) :
    processPacket alive cancelWriteOk packet table =
      some ⟨removeTag table t, [(s, .err (.protocol e))], [], false⟩ ∧
      (∀ (packet₂ : List Nat) (r : CommandResponse),
        parseResponse packet₂ = some (.ok r) → responseTag r = some t →
        processPacket alive cancelWriteOk packet₂ (removeTag table t) =
          some ⟨removeTag table t, [], [], false⟩) := by
  constructor
  · simp only [processPacket, hp, hx, hl]
  · intro packet₂ r hp2 hr
    have hnone : lookupTag (removeTag table t) t = none := lookupTag_removeTag table t
    cases r with
    | done t' =>
      have ht' : t' = t := by simpa [responseTag] using hr
      subst ht'
      simp only [processPacket, hp2, hnone]
    | reply t' attrs =>
      have ht' : t' = t := by simpa [responseTag] using hr
      subst ht'
      simp only [processPacket, hp2, hnone]
    | trap t' c m =>
      have ht' : t' = t := by simpa [responseTag] using hr
      subst ht'
      simp only [processPacket, hp2, hnone]
    | fatal reason => simp [responseTag] at hr
    | empty t' =>
      have ht' : t' = t := by simpa [responseTag] using hr
      subst ht'
      simp only [processPacket, hp2, hnone]

/-- **C10** (witness).  A malformed packet (`.tag=7 =a=b`, whose first
word is not a category) against the table `[(7, 42), (5, 30)]`: the
entry for tag 7 is removed and sent the parse error, the entry for tag 5
is untouched; a subsequent `!done .tag=7` delivers nothing. -/
theorem C10_parse_error_witness :
    processPacket (fun _ => true) true
        (encodeSentence [asciiBytes ".tag=7", asciiBytes "=a=b"]) [(7, 42), (5, 30)] =
      some ⟨[(5, 30)], [(42, .err (.protocol (.wordSequence .tag [.category])))],
        [], false⟩ ∧
      processPacket (fun _ => true) true
        (encodeSentence [asciiBytes "!done", asciiBytes ".tag=7"]) [(5, 30)] =
      some ⟨[(5, 30)], [], [], false⟩ := by
  have h := C10_parse_error_terminates_stream (fun _ => true) true
    (encodeSentence [asciiBytes ".tag=7", asciiBytes "=a=b"]) [(7, 42), (5, 30)]
    7 42 (.wordSequence .tag [.category]) rfl rfl rfl
  constructor
  · have h1 := h.1
    simpa using h1
  · have h2 := h.2 (encodeSentence [asciiBytes "!done", asciiBytes ".tag=7"])
      (.done 7) rfl rfl
    simpa using h2

/-! ## Symbolic evaluation helpers for the word parser -/

theorem isValidUtf8Go_of_ascii (fuel : Nat) :
    ∀ s : List Nat, s.length < fuel → (∀ b ∈ s, b ≤ 0x7F) →
      isValidUtf8Go fuel s = true := by
  induction fuel with
  | zero => intro s h1; omega
  | succ fuel ih =>
    intro s h1 h
    match s with
    | [] => rfl
    | b :: rest =>
      unfold isValidUtf8Go
      rw [if_pos (h b (List.mem_cons_self b rest))]
      have h1r : rest.length < fuel := by
        simp only [List.length_cons] at h1
        omega
      exact ih rest h1r (fun x hm => h x (List.mem_cons_of_mem b hm))

theorem isValidUtf8_of_ascii :
    ∀ {s : List Nat}, (∀ b ∈ s, b ≤ 0x7F) → isValidUtf8 s = true := by
  intro s h
  exact isValidUtf8Go_of_ascii (s.length + 1) s (Nat.lt_succ_self _) h

theorem ne_token {b c : Nat} {rest cs tok : List Nat} (htok : tok = c :: cs)
    (hb : b ≠ c) : ¬(b :: rest = tok) := by
  rw [htok]
  intro h
  injection h with h1 _
  exact hb h1

theorem wordCategoryOfBytes_ne_bang {b : Nat} (hb : b ≠ 33) (rest : List Nat) :
    wordCategoryOfBytes (b :: rest) = none := by
  unfold wordCategoryOfBytes
  rw [if_neg (ne_token (show asciiBytes "!done" = 33 :: [100, 111, 110, 101] from rfl) hb),
    if_neg (ne_token (show asciiBytes "!re" = 33 :: [114, 101] from rfl) hb),
    if_neg (ne_token (show asciiBytes "!trap" = 33 :: [116, 114, 97, 112] from rfl) hb),
    if_neg (ne_token (show asciiBytes "!fatal" = 33 :: [102, 97, 116, 97, 108] from rfl) hb),
    if_neg (ne_token (show asciiBytes "!empty" = 33 :: [101, 109, 112, 116, 121] from rfl) hb)]

theorem take5_ne_tag {b : Nat} (hb : b ≠ 46) (rest : List Nat) :
    ((b :: rest).take 5 = asciiBytes ".tag=") = False := by
  apply eq_false
  rw [show (b :: rest).take 5 = b :: rest.take 4 from rfl]
  exact ne_token (show asciiBytes ".tag=" = 46 :: [116, 97, 103, 61] from rfl) hb

/-- Any word starting with `=` resolves through the attribute stage,
whether or not it is valid UTF-8. -/
theorem wordTryFrom_eq_shape (rest : List Nat) :
    wordTryFrom (61 :: rest) = wordAfterCategoryTag (61 :: rest) := by
  unfold wordTryFrom
  split
  · rw [wordCategoryOfBytes_ne_bang (b := 61) (by decide) rest]
    simp only [take5_ne_tag (b := 61) (by decide) rest, if_false]
  · rfl

theorem split_at_61 (k v : List Nat) (hk : (61 : Nat) ∉ k) :
    (k ++ 61 :: v).takeWhile (fun x => x ≠ 61) = k ∧
      (k ++ 61 :: v).dropWhile (fun x => x ≠ 61) = 61 :: v ∧
      (k ++ 61 :: v).any (fun x => x == 61) = true := by
  induction k with
  | nil => refine ⟨?_, ?_, ?_⟩ <;> simp [List.takeWhile_cons, List.dropWhile_cons]
  | cons x xs ih =>
    have hx : x ≠ 61 := fun h0 => hk (h0 ▸ List.mem_cons_self x xs)
    have hxs : (61 : Nat) ∉ xs := fun hm => hk (List.mem_cons_of_mem x hm)
    obtain ⟨h1, h2, h3⟩ := ih hxs
    refine ⟨?_, ?_, ?_⟩
    · rw [List.cons_append, List.takeWhile_cons, if_pos (by simp [hx]), h1]
    · rw [List.cons_append, List.dropWhile_cons, if_pos (by simp [hx]), h2]
    · simp [h3]

/-- `WordAttribute::try_from` on a word `=key=value` whose key holds no
further `=`: key and raw value are the exact segments; the UTF-8 view of
the value survives only if it decodes. -/
theorem wordAttributeTryFrom_split (k v : List Nat) (hk : (61 : Nat) ∉ k) :
    wordAttributeTryFrom (61 :: (k ++ 61 :: v)) =
      if isValidUtf8 k then
        .ok ⟨k, if isValidUtf8 v then some v else none, some v⟩
      else .error .attributeKeyNotUtf8 := by
  obtain ⟨h1, h2, h3⟩ := split_at_61 k v hk
  unfold wordAttributeTryFrom
  simp only [if_pos rfl, h1, h2, h3, if_true, List.drop_succ_cons, List.drop_zero]
  split_ifs <;> simp_all [Option.bind]

/-- `Word::try_from` on `.tag=<digits>` with a parseable `u16` value. -/
theorem wordTryFrom_tag (ds : List Nat) (t : Nat) (hds : parse_u16 ds = some t)
    (hascii : ∀ b ∈ ds, b ≤ 0x7F) :
    wordTryFrom (asciiBytes ".tag=" ++ ds) = .ok (.tag t) := by
  have hpre : asciiBytes ".tag=" = [46, 116, 97, 103, 61] := rfl
  have hvalid : isValidUtf8 (asciiBytes ".tag=" ++ ds) = true := by
    apply isValidUtf8_of_ascii
    intro b hb
    rcases List.mem_append.mp hb with h | h
    · rw [hpre] at h
      simp at h
      rcases h with rfl | rfl | rfl | rfl | rfl <;> norm_num
    · exact hascii b h
  have hshape : asciiBytes ".tag=" ++ ds = 46 :: ([116, 97, 103, 61] ++ ds) := by
    rw [hpre]
    rfl
  unfold wordTryFrom
  rw [hvalid]
  simp only [if_true]
  rw [hshape, wordCategoryOfBytes_ne_bang (by decide), ← hshape]
  rw [show (5 : Nat) = (asciiBytes ".tag=").length from rfl, List.take_left,
    List.drop_left]
  simp [hds]

theorem parseReplyLoop_no_tag :
    ∀ (items : List (Except SentenceError Word)),
      (∀ i ∈ items, ∃ a, i = .ok (.attribute a)) →
      ∀ attrs, parseReplyLoop items .clean none attrs =
        some (.error (.incomplete .category)) := by
  intro items
  induction items with
  | nil => intro _ attrs; rfl
  | cons i rest ih =>
    intro h attrs
    obtain ⟨a, rfl⟩ := h i (List.mem_cons_self i rest)
    unfold parseReplyLoop
    exact ih (fun j hm => h j (List.mem_cons_of_mem _ hm)) _

/-- **C5** (counterexample).  The claim: a `!done`/`!re`/`!trap` sentence
with no `.tag` word fails with `ProtocolError::Incomplete(MissingWord::Tag)`.
The code: for `!re` (and `!trap`) the missing tag is reported as
`Incomplete(MissingWord::Category)` (`src/protocol/mod.rs:98,139`) — the
sentence `!re =a=b` fails with the `Category` variant, not `Tag`. -/
theorem C5_missing_tag_counterexample :
    parseResponse (encodeSentence [asciiBytes "!re", asciiBytes "=a=b"]) =
      some (.error (.incomplete .category)) ∧
      MissingWord.category ≠ MissingWord.tag :=
  ⟨rfl, by decide⟩

/-- **C5** (amended).  Parsing a category sentence without a tag always
fails, but the error depends on the branch: a bare `!done` fails with
`Incomplete(MissingWord::Tag)`; a `!done` whose next word is an
attribute fails with `WordSequence`; a `!re` followed by any attribute
words but no tag, and a `!trap` with only a message attribute, fail with
`Incomplete(MissingWord::Category)` (the source reports the missing tag
with the `Category` variant in those loops). -/
theorem C5_missing_tag_behaviour :
    parseResponse (encodeSentence [asciiBytes "!done"]) =
      some (.error (.incomplete .tag)) ∧
    (∀ (w : List Nat) (a : WordAttribute),
      wordTryFrom w = .ok (.attribute a) → w ≠ [] → w.length < 2 ^ 32 →
      parseResponse (encodeSentence [asciiBytes "!done", w]) =
        some (.error (.wordSequence .attribute ([.tag])))) ∧
    (∀ ws : List (List Nat),
      (∀ w ∈ ws, ∃ a, wordTryFrom w = .ok (.attribute a)) →
      (∀ w ∈ ws, w ≠ [] ∧ w.length < 2 ^ 32) →
      parseResponse (encodeSentence (asciiBytes "!re" :: ws)) =
        some (.error (.incomplete .category))) ∧
    parseResponse (encodeSentence [asciiBytes "!trap", asciiBytes "=message=x"]) =
      some (.error (.incomplete .category)) := by
  refine ⟨rfl, ?_, ?_, rfl⟩
  · intro w a hw hne hlen
    unfold parseResponse
    rw [sentenceSteps_encode [asciiBytes "!done", w] ?_]
    · simp only [List.map_cons, List.map_nil, hw,
        show wordTryFrom (asciiBytes "!done") = .ok (.category .done) from rfl,
        Except.mapError]
      simp [parseDone, wordTypeOf]
    · intro w' hm
      rcases List.mem_cons.mp hm with rfl | hm2
      · exact ⟨by decide, by decide⟩
      rcases List.mem_cons.mp hm2 with rfl | hm3
      · exact ⟨hne, hlen⟩
      · simp at hm3
  · intro ws hattr hwf
    unfold parseResponse
    rw [sentenceSteps_encode (asciiBytes "!re" :: ws) ?_]
    · simp only [List.map_cons,
        show wordTryFrom (asciiBytes "!re") = .ok (.category .reply) from rfl,
        Except.mapError]
      apply parseReplyLoop_no_tag
      intro i hi
      rw [List.mem_map] at hi
      obtain ⟨w, hw, rfl⟩ := hi
      obtain ⟨a, ha⟩ := hattr w hw
      refine ⟨a, ?_⟩
      rw [ha]
    · intro w' hm
      rcases List.mem_cons.mp hm with rfl | hm2
      · exact ⟨by decide, by decide⟩
      · exact hwf w' hm2

/-- **C5** (witness).  The amended theorem's universally quantified parts
applied at concrete words: `!done =a=b` and `!re =a=b`. -/
theorem C5_missing_tag_witness :
    parseResponse (encodeSentence [asciiBytes "!done", asciiBytes "=a=b"]) =
      some (.error (.wordSequence .attribute ([.tag]))) ∧
    parseResponse (encodeSentence [asciiBytes "!re", asciiBytes "=a=b"]) =
      some (.error (.incomplete .category)) := by
  constructor
  · exact C5_missing_tag_behaviour.2.1 (asciiBytes "=a=b")
      ⟨[97], some [98], some [98]⟩ rfl (by decide) (by decide)
  · exact C5_missing_tag_behaviour.2.2.1 [asciiBytes "=a=b"]
      (fun w hm => by
        have hw : w = asciiBytes "=a=b" := by simpa using hm
        refine ⟨⟨[97], some [98], some [98]⟩, ?_⟩
        rw [hw]
        rfl)
      (fun w hm => by
        have hw : w = asciiBytes "=a=b" := by simpa using hm
        rw [hw]
        exact ⟨by decide, by decide⟩)

/-- `Word::try_from` of `=<key>=<value>` with a valid-UTF-8 key free of
`=`: an attribute whose raw value is kept verbatim and whose UTF-8 view
survives only if the value decodes. -/
theorem wordTryFrom_keyed_attr (k v : List Nat) (hk61 : (61 : Nat) ∉ k)
    (hkv : isValidUtf8 k = true) :
    wordTryFrom (61 :: (k ++ 61 :: v)) =
      .ok (.attribute ⟨k, if isValidUtf8 v then some v else none, some v⟩) := by
  rw [wordTryFrom_eq_shape]
  unfold wordAfterCategoryTag
  simp only [if_true]
  rw [wordAttributeTryFrom_split k v hk61, if_pos hkv]

theorem trapCategoryOfNat_ge8 {n : Nat} (h : 8 ≤ n) :
    trapCategoryOfNat n = .error (.outOfRange n) := by
  obtain ⟨k, rfl⟩ : ∃ k, n = k + 8 := ⟨n - 8, by omega⟩
  rfl

/-- Parsing the canonical trap sentence
`!trap .tag=<ds> =message=<m> =category=<cs>`: the tag and message are
taken verbatim and the result is decided by `TrapCategory::try_from` on
the category value. -/
theorem parseResponse_trap_canonical
    (ds : List Nat) (t : Nat) (m cs : List Nat)
    (hds : parse_u16 ds = some t) (hdsa : ∀ b ∈ ds, b ≤ 0x7F)
    (hdslen : ds.length + 5 < 2 ^ 32)
    (hma : ∀ b ∈ m, b ≤ 0x7F) (hmlen : m.length + 9 < 2 ^ 32)
    (hcsa : ∀ b ∈ cs, b ≤ 0x7F) (hcslen : cs.length + 10 < 2 ^ 32) :
    parseResponse (encodeSentence [asciiBytes "!trap", asciiBytes ".tag=" ++ ds,
        asciiBytes "=message=" ++ m, asciiBytes "=category=" ++ cs]) =
      match trapCategoryOfStr cs with
      | .error e => some (.error e)
      | .ok c => some (.ok (.trap t (some c) m)) := by
  have hw1 : wordTryFrom (asciiBytes "!trap") = .ok (.category .trap) := rfl
  have hw2 := wordTryFrom_tag ds t hds hdsa
  have hw3 : wordTryFrom (asciiBytes "=message=" ++ m) =
      .ok (.attribute ⟨asciiBytes "message", some m, some m⟩) := by
    rw [show asciiBytes "=message=" ++ m = 61 :: (asciiBytes "message" ++ 61 :: m)
      from rfl]
    rw [wordTryFrom_keyed_attr _ _ (by decide) (by decide)]
    simp [isValidUtf8_of_ascii hma]
  have hw4 : wordTryFrom (asciiBytes "=category=" ++ cs) =
      .ok (.attribute ⟨asciiBytes "category", some cs, some cs⟩) := by
    rw [show asciiBytes "=category=" ++ cs = 61 :: (asciiBytes "category" ++ 61 :: cs)
      from rfl]
    rw [wordTryFrom_keyed_attr _ _ (by decide) (by decide)]
    simp [isValidUtf8_of_ascii hcsa]
  unfold parseResponse
  rw [sentenceSteps_encode _ ?_]
  · simp only [List.map_cons, List.map_nil, hw1, hw2, hw3, hw4, Except.mapError]
    unfold parseTrapLoop
    simp only []
    unfold parseTrapLoop
    simp only []
    rw [if_neg (show ¬(asciiBytes "message" = asciiBytes "category") by decide)]
    simp only [if_true]
    unfold parseTrapLoop
    simp only [if_true]
    cases htc : trapCategoryOfStr cs with
    | error e => simp [htc]
    | ok c => simp [htc, parseTrapLoop]
  · intro w' hm
    rcases List.mem_cons.mp hm with rfl | hm
    · exact ⟨by decide, by decide⟩
    rcases List.mem_cons.mp hm with rfl | hm
    · have hlt : (asciiBytes ".tag=").length = 5 := rfl
      refine ⟨List.length_pos.mp (by simp only [List.length_append, hlt]; omega), ?_⟩
      simp only [List.length_append, hlt]
      omega
    rcases List.mem_cons.mp hm with rfl | hm
    · have hlt : (asciiBytes "=message=").length = 9 := rfl
      refine ⟨List.length_pos.mp (by simp only [List.length_append, hlt]; omega), ?_⟩
      simp only [List.length_append, hlt]
      omega
    rcases List.mem_cons.mp hm with rfl | hm
    · have hlt : (asciiBytes "=category=").length = 10 := rfl
      refine ⟨List.length_pos.mp (by simp only [List.length_append, hlt]; omega), ?_⟩
      simp only [List.length_append, hlt]
      omega
    · simp at hm

/-- **C6** (counterexample).  The claim: a `!trap` category value of 8 or
more fails with `TrapCategoryOutOfRange` carrying that integer.  The
code parses the value with `str::parse::<u8>` first, so `category=256`
fails with the `Invalid` parse error — not `OutOfRange(256)`, which the
`u8`-carrying variant could not even represent. -/
theorem C6_trap_category_256_counterexample :
    parseResponse (encodeSentence [asciiBytes "!trap", asciiBytes ".tag=1",
        asciiBytes "=message=m", asciiBytes "=category=256"]) =
      some (.error (.trapCategory .invalid)) ∧
      TrapCategoryError.invalid ≠ TrapCategoryError.outOfRange 256 :=
  ⟨rfl, by decide⟩

/-- **C6** (amended).  For the canonical tagged `!trap` sentence: a
`category` value parsing as a `u8` in `0..=7` maps to the corresponding
`TrapCategory` variant; a value parsing as a `u8` of 8 or more
(8..=255) fails with `TrapCategoryOutOfRange` carrying it; a value that
does not parse as `u8` at all — including every integer above 255 —
fails with the `Invalid` parse error; a missing `message` attribute
fails with `MissingMessageAttribute`; an attribute key other than
`message`/`category` fails with `InvalidAttribute` carrying key and
value. -/
theorem C6_trap_attribute_validation :
    (∀ (ds : List Nat) (t : Nat) (m cs : List Nat) (n : Nat) (c : TrapCategory),
      parse_u16 ds = some t → (∀ b ∈ ds, b ≤ 0x7F) → ds.length + 5 < 2 ^ 32 →
      (∀ b ∈ m, b ≤ 0x7F) → m.length + 9 < 2 ^ 32 →
      (∀ b ∈ cs, b ≤ 0x7F) → cs.length + 10 < 2 ^ 32 →
      parse_u8 cs = some n → trapCategoryOfNat n = .ok c →
      parseResponse (encodeSentence [asciiBytes "!trap", asciiBytes ".tag=" ++ ds,
          asciiBytes "=message=" ++ m, asciiBytes "=category=" ++ cs]) =
        some (.ok (.trap t (some c) m))) ∧
    (∀ (ds : List Nat) (t : Nat) (m cs : List Nat) (n : Nat),
      parse_u16 ds = some t → (∀ b ∈ ds, b ≤ 0x7F) → ds.length + 5 < 2 ^ 32 →
      (∀ b ∈ m, b ≤ 0x7F) → m.length + 9 < 2 ^ 32 →
      (∀ b ∈ cs, b ≤ 0x7F) → cs.length + 10 < 2 ^ 32 →
      parse_u8 cs = some n → 8 ≤ n →
      parseResponse (encodeSentence [asciiBytes "!trap", asciiBytes ".tag=" ++ ds,
          asciiBytes "=message=" ++ m, asciiBytes "=category=" ++ cs]) =
        some (.error (.trapCategory (.outOfRange n)))) ∧
    (∀ (ds : List Nat) (t : Nat) (m cs : List Nat),
      parse_u16 ds = some t → (∀ b ∈ ds, b ≤ 0x7F) → ds.length + 5 < 2 ^ 32 →
      (∀ b ∈ m, b ≤ 0x7F) → m.length + 9 < 2 ^ 32 →
      (∀ b ∈ cs, b ≤ 0x7F) → cs.length + 10 < 2 ^ 32 →
      parse_u8 cs = none →
      parseResponse (encodeSentence [asciiBytes "!trap", asciiBytes ".tag=" ++ ds,
          asciiBytes "=message=" ++ m, asciiBytes "=category=" ++ cs]) =
        some (.error (.trapCategory .invalid))) ∧
    (∀ (ds : List Nat) (t : Nat),
      parse_u16 ds = some t → (∀ b ∈ ds, b ≤ 0x7F) → ds.length + 5 < 2 ^ 32 →
      parseResponse (encodeSentence [asciiBytes "!trap", asciiBytes ".tag=" ++ ds]) =
        some (.error (.trapCategory .missingMessageAttribute))) ∧
    (∀ (ds : List Nat) (t : Nat),
      parse_u16 ds = some t → (∀ b ∈ ds, b ≤ 0x7F) → ds.length + 5 < 2 ^ 32 →
      parseResponse (encodeSentence [asciiBytes "!trap", asciiBytes ".tag=" ++ ds,
          asciiBytes "=foo=bar"]) =
        some (.error (.trapCategory (.invalidAttribute (asciiBytes "foo")
          (some (asciiBytes "bar")))))) := by
  refine ⟨?_, ?_, ?_, ?_, ?_⟩
  · intro ds t m cs n c hds hdsa hdslen hma hmlen hcsa hcslen hn hc
    rw [parseResponse_trap_canonical ds t m cs hds hdsa hdslen hma hmlen hcsa hcslen]
    simp [trapCategoryOfStr, hn, hc]
  · intro ds t m cs n hds hdsa hdslen hma hmlen hcsa hcslen hn h8
    rw [parseResponse_trap_canonical ds t m cs hds hdsa hdslen hma hmlen hcsa hcslen]
    simp [trapCategoryOfStr, hn, trapCategoryOfNat_ge8 h8]
  · intro ds t m cs hds hdsa hdslen hma hmlen hcsa hcslen hn
    rw [parseResponse_trap_canonical ds t m cs hds hdsa hdslen hma hmlen hcsa hcslen]
    simp [trapCategoryOfStr, hn]
  · intro ds t hds hdsa hdslen
    have hw2 := wordTryFrom_tag ds t hds hdsa
    unfold parseResponse
    rw [sentenceSteps_encode _ ?_]
    · simp only [List.map_cons, List.map_nil,
        show wordTryFrom (asciiBytes "!trap") = .ok (.category .trap) from rfl,
        hw2, Except.mapError]
      unfold parseTrapLoop
      simp only []
      unfold parseTrapLoop
      simp only []
    · intro w' hm
      rcases List.mem_cons.mp hm with rfl | hm
      · exact ⟨by decide, by decide⟩
      rcases List.mem_cons.mp hm with rfl | hm
      · have hlt : (asciiBytes ".tag=").length = 5 := rfl
        refine ⟨List.length_pos.mp (by simp only [List.length_append, hlt]; omega), ?_⟩
        simp only [List.length_append, hlt]
        omega
      · simp at hm
  · intro ds t hds hdsa hdslen
    have hw2 := wordTryFrom_tag ds t hds hdsa
    have hw5 : wordTryFrom (asciiBytes "=foo=bar") =
        .ok (.attribute ⟨asciiBytes "foo", some (asciiBytes "bar"),
          some (asciiBytes "bar")⟩) := rfl
    unfold parseResponse
    rw [sentenceSteps_encode _ ?_]
    · simp only [List.map_cons, List.map_nil,
        show wordTryFrom (asciiBytes "!trap") = .ok (.category .trap) from rfl,
        hw2, hw5, Except.mapError]
      unfold parseTrapLoop
      simp only []
      unfold parseTrapLoop
      simp only []
      rw [if_neg (show ¬(asciiBytes "foo" = asciiBytes "category") by decide),
        if_neg (show ¬(asciiBytes "foo" = asciiBytes "message") by decide)]
    · intro w' hm
      rcases List.mem_cons.mp hm with rfl | hm
      · exact ⟨by decide, by decide⟩
      rcases List.mem_cons.mp hm with rfl | hm
      · have hlt : (asciiBytes ".tag=").length = 5 := rfl
        refine ⟨List.length_pos.mp (by simp only [List.length_append, hlt]; omega), ?_⟩
        simp only [List.length_append, hlt]
        omega
      rcases List.mem_cons.mp hm with rfl | hm
      · exact ⟨by decide, by decide⟩
      · simp at hm

/-- **C6** (witness).  The amended theorem's out-of-range part at the
concrete sentence `!trap .tag=1 =message=m =category=8`. -/
theorem C6_trap_attribute_witness :
    parseResponse (encodeSentence [asciiBytes "!trap", asciiBytes ".tag=" ++ [49],
        asciiBytes "=message=" ++ [109], asciiBytes "=category=" ++ [56]]) =
      some (.error (.trapCategory (.outOfRange 8))) := by
  exact C6_trap_attribute_validation.2.1 [49] 1 [109] [56] 8 rfl (by decide)
    (by decide) (by decide) (by decide) (by decide) (by decide) rfl (by decide)

/-- **C7** (counterexample).  The claim: a non-UTF-8 attribute value still
parses and its bytes are preserved verbatim in the parsed result.  The
word level preserves them (`value_raw`), but the response parser keeps
only the UTF-8 view (`value.map(String::from)`,
`src/protocol/mod.rs:87`): the replies for values `0xFF` and `0xFE`
parse to the *same* `ReplyResponse` mapping `k` to `None`, so the bytes
are not preserved at the response level. -/
theorem C7_value_bytes_lost_in_response :
    parseResponse (encodeSentence [asciiBytes "!re", asciiBytes ".tag=1",
        asciiBytes "=k=" ++ [0xFF]]) =
      parseResponse (encodeSentence [asciiBytes "!re", asciiBytes ".tag=1",
        asciiBytes "=k=" ++ [0xFE]]) ∧
      asciiBytes "=k=" ++ [0xFF] ≠ asciiBytes "=k=" ++ [0xFE] ∧
      parseResponse (encodeSentence [asciiBytes "!re", asciiBytes ".tag=1",
        asciiBytes "=k=" ++ [0xFF]]) =
        some (.ok (.reply 1 [(asciiBytes "k", none)])) :=
  ⟨rfl, by decide, rfl⟩

/-- **C7** (amended).  A non-UTF-8 attribute value never fails parsing:
at the word level the attribute keeps the raw bytes verbatim in
`value_raw` while the UTF-8 view is `None`; a `!re` sentence containing
such an attribute parses successfully, but the `ReplyResponse` retains
only the UTF-8 view, so the value appears as `None` and the raw bytes
are not carried into the response.  A key that is not valid UTF-8 fails
with `WordError::AttributeKeyNotUtf8`. -/
theorem C7_value_byte_transparency :
    (∀ (k v : List Nat), isValidUtf8 k = true → isValidUtf8 v = false →
      (61 : Nat) ∉ k →
      wordTryFrom (61 :: (k ++ 61 :: v)) = .ok (.attribute ⟨k, none, some v⟩)) ∧
    (∀ v : List Nat, isValidUtf8 v = false → v.length + 3 < 2 ^ 32 →
      parseResponse (encodeSentence [asciiBytes "!re", asciiBytes ".tag=1",
          61 :: 107 :: 61 :: v]) =
        some (.ok (.reply 1 [([107], none)]))) ∧
    (∀ (k v : List Nat), isValidUtf8 k = false → (61 : Nat) ∉ k →
      wordTryFrom (61 :: (k ++ 61 :: v)) = .error .attributeKeyNotUtf8) := by
  have part1 : ∀ (k v : List Nat), isValidUtf8 k = true → isValidUtf8 v = false →
      (61 : Nat) ∉ k →
      wordTryFrom (61 :: (k ++ 61 :: v)) = .ok (.attribute ⟨k, none, some v⟩) := by
    intro k v hk hv hk61
    rw [wordTryFrom_keyed_attr k v hk61 hk]
    simp [hv]
  refine ⟨part1, ?_, ?_⟩
  · intro v hv hvlen
    have hw3 : wordTryFrom (61 :: 107 :: 61 :: v) =
        .ok (.attribute ⟨[107], none, some v⟩) := by
      rw [show (61 : Nat) :: 107 :: 61 :: v = 61 :: ([107] ++ 61 :: v) from rfl]
      exact part1 [107] v (by decide) hv (by decide)
    unfold parseResponse
    rw [sentenceSteps_encode _ ?_]
    · simp only [List.map_cons, List.map_nil,
        show wordTryFrom (asciiBytes "!re") = .ok (.category .reply) from rfl,
        show wordTryFrom (asciiBytes ".tag=1") = .ok (.tag 1) from rfl,
        hw3, Except.mapError]
      unfold parseReplyLoop
      simp only []
      unfold parseReplyLoop
      simp only []
      unfold parseReplyLoop
      simp only [insertAttr]
    · intro w' hm
      rcases List.mem_cons.mp hm with rfl | hm
      · exact ⟨by decide, by decide⟩
      rcases List.mem_cons.mp hm with rfl | hm
      · exact ⟨by decide, by decide⟩
      rcases List.mem_cons.mp hm with rfl | hm
      · refine ⟨by simp, ?_⟩
        simp only [List.length_cons]
        omega
      · simp at hm
  · intro k v hk hk61
    rw [wordTryFrom_eq_shape]
    unfold wordAfterCategoryTag
    simp only [if_true]
    rw [wordAttributeTryFrom_split k v hk61, if_neg (by simp [hk])]

/-- **C7** (witness).  The amended theorem's response-level part at the
concrete non-UTF-8 value `[0xFF]`. -/
theorem C7_value_byte_transparency_witness :
    parseResponse (encodeSentence [asciiBytes "!re", asciiBytes ".tag=1",
        61 :: 107 :: 61 :: [0xFF]]) =
      some (.ok (.reply 1 [([107], none)])) :=
  C7_value_byte_transparency.2.1 [0xFF] rfl (by decide)

end MikrotikRs
